import Mathlib

/-!
Verification of the SpamNet-Classifier notebook (`spam_detect_app.ipynb`).

The notebook is a linear pipeline: `read_data` parses tab-separated
label/text lines into binary labels, a tokenizer vectorizes the texts,
`build_embedding_matrix` builds (and caches to disk) a dense embedding
matrix from a pre-trained word-vector source, and `predict_spam` wraps
tokenization, padding and model inference into a classifier call.

Shallow embedding conventions:
* Dense numeric entries (numpy floats) are modelled as rationals `ℚ`.
* A matrix is a list of rows; numpy's `E[idx] = vec` row assignment is
  `setRow`, which fails (like numpy raising `IndexError`/`ValueError`)
  when the index is out of range or the vector length differs from the
  row length.
* The file system is restricted to the single cache path the function
  touches: `Option Mat` is the content of `embedding_file`
  (`none` = the file does not exist).
* The external pre-trained source (`gensim` model, queried with
  `get_vector`) is a function `String → Option Vec`; `none` models the
  `KeyError` raised for an absent word.
* Strings read from the data file are handled as `List Char` so that the
  tab-splitting of `line.strip().split('\t')` is a structurally
  recursive, kernel-computable function.
-/

namespace SpamNet

/-- A dense vector: one row of the embedding matrix, or one pre-trained
word vector. Entries are numpy floats, modelled as rationals. -/
abbrev Vec : Type := List ℚ

/-- A 2-D dense array (numpy matrix) as a list of rows. -/
abbrev Mat : Type := List Vec

/-- The pre-trained embedding source (`api.load(EMBEDDING_MODEL)` with
`get_vector`): maps a word to its vector, or `none` for the `KeyError`
on an absent word. -/
abbrev EmbeddingSource : Type := String → Option Vec

/-- A vocabulary mapping (`word2idx`, a Python dict): an association
list of (word, index) pairs in iteration order. -/
abbrev Vocab : Type := List (String × Nat)

/-- `np.zeros((vocab_size, embedding_dim))`. -/
def zerosMatrix (vocab_size embedding_dim : Nat) : Mat :=
  List.replicate vocab_size (List.replicate embedding_dim 0)

/-- numpy row assignment `E[idx] = vec`: succeeds when `idx` is in range
and `vec` matches the row length, otherwise fails (numpy raises
`IndexError` resp. a broadcast `ValueError`). -/
def setRow (E : Mat) (idx : Nat) (vec : Vec) : Option Mat :=
  match E[idx]? with
  | none => none
  | some row => if vec.length = row.length then some (E.set idx vec) else none

/-- The fill loop of `build_embedding_matrix`:
`for word, idx in word2idx.items(): try: E[idx] = word_vectors.get_vector(word)
except KeyError: pass`. A lookup miss is skipped; a row-assignment error
propagates out. -/
def fillRows (word_vectors : EmbeddingSource) : Vocab → Mat → Option Mat
  | [], E => some E
  | (word, idx) :: rest, E =>
    match word_vectors word with
    | none => fillRows word_vectors rest E
    | some vec =>
      match setRow E idx vec with
      | none => none
      | some E2 => fillRows word_vectors rest E2

/-- `build_embedding_matrix(sequences, word2idx, embedding_dim, embedding_file)`.

`cache` is the content of the file at `embedding_file` (`none` when the
file does not exist); `word_vectors` is the source that
`api.load(EMBEDDING_MODEL)` would return on the cache-miss path. The
result pairs the returned matrix `E` with the content of the cache file
after the call (`np.save` on the miss path). `none` models an uncaught
exception. -/
def build_embedding_matrix (word_vectors : EmbeddingSource) (cache : Option Mat)
    (sequences : List (List Nat)) (word2idx : Vocab) (embedding_dim : Nat) :
    Option (Mat × Option Mat) :=
  match cache with
  | some E => some (E, some E)
  | none =>
    let vocab_size := word2idx.length
    let E0 := zerosMatrix vocab_size embedding_dim
    match fillRows word_vectors word2idx E0 with
    | none => none
    | some E => some (E, some E)

/-- `E` is a 2-D array of shape (v, d). -/
def isShape (E : Mat) (v d : Nat) : Prop :=
  E.length = v ∧ ∀ row ∈ E, row.length = d

instance (E : Mat) (v d : Nat) : Decidable (isShape E v d) := by
  unfold isShape; infer_instance

/-- The tokenizer handle restricted to one text: the integer sequence
`texts_to_sequences` produces for it (unseen words already dropped by
the tokenizer, which is external). -/
abbrev Tokenizer : Type := String → List Nat

/-- `tf.keras.preprocessing.sequence.pad_sequences` with an explicit
`maxlen`, on a single sequence, with the defaults used by the notebook
(`padding='pre'`, `truncating='pre'`, `value=0`): keep the last `maxlen`
entries of a longer sequence, prepend zeros to a shorter one. -/
def pad_sequences (seq : List Nat) (maxlen : Nat) : List Nat :=
  if maxlen ≤ seq.length then seq.drop (seq.length - maxlen)
  else List.replicate (maxlen - seq.length) 0 ++ seq

/-- The trained model handle: `model.predict` on the batch holding the
single padded sequence, read back as the softmax pair
(row `[0][0]` = not-spam probability, row `[0][1]` = spam probability),
since the dense output layer has `NUM_CLASSES = 2` units. -/
abbrev ModelHandle : Type := List Nat → ℚ × ℚ

/-- `predict_spam(message, model, tokenizer, max_seqlen)`: tokenize,
pad to `max_seqlen`, run inference, read the spam-class probability
`prediction[0][1]` and threshold it at 0.5. -/
def predict_spam (message : String) (model : ModelHandle) (tokenizer : Tokenizer)
    (max_seqlen : Nat) : String :=
  let sequence := tokenizer message
  let padded_sequence := pad_sequences sequence max_seqlen
  let prediction := model padded_sequence
  let spam_prediction := prediction.2
  if spam_prediction > 1/2 then "Spam" else "Not Spam"

/-- Python `str.split('\t')` on a character list: split at every tab,
keeping empty groups (so a line with exactly one tab yields exactly two
groups). -/
def splitTab (cs : List Char) : List (List Char) :=
  match cs with
  | [] => [[]]
  | c :: rest =>
    let r := splitTab rest
    if c = '\t' then [] :: r
    else
      match r with
      | [] => [[c]]
      | g :: gs => (c :: g) :: gs

/-- Python `str.strip()` on a character list: drop leading and trailing
whitespace. -/
def stripChars (cs : List Char) : List Char :=
  ((cs.dropWhile Char.isWhitespace).reverse.dropWhile Char.isWhitespace).reverse

/-- One iteration of the `read_data` loop body on a raw line:
`label, text = line.strip().split('\t')` (fails unless the split yields
exactly two fields), then the label is encoded as
`1 if label == 'spam' else 0`. -/
def parseLine (line : List Char) : Option (Nat × List Char) :=
  match splitTab (stripChars line) with
  | [label, text] => some ((if label = "spam".toList then 1 else 0), text)
  | _ => none

/-- `read_data`, modelled on the lines of the extracted
`SMSSpamCollection` file (the zip extraction and file IO are external):
parse each line in order, returning the texts list and the binary labels
list. `none` models the `ValueError` of a malformed line. -/
def read_data (lines : List (List Char)) : Option (List (List Char) × List Nat) :=
  match lines with
  | [] => some ([], [])
  | line :: rest =>
    match parseLine line, read_data rest with
    | some (lab, text), some (texts, labels) => some (text :: texts, lab :: labels)
    | _, _ => none

/-- The label field of a raw line, as counted by the spec: the first
tab-separated field of the stripped line. -/
def labelField (line : List Char) : List Char :=
  (splitTab (stripChars line)).headD []

end SpamNet

namespace SpamNet

/-- C2: if the cache file exists with content `M`, `build_embedding_matrix`
returns exactly `M`, for every embedding source (so the source is never
queried), and the cache file is left unchanged (no write). -/
theorem cache_hit_returns_file_verbatim (word_vectors : EmbeddingSource) (M : Mat)
    (sequences : List (List Nat)) (word2idx : Vocab) (embedding_dim : Nat) :
    build_embedding_matrix word_vectors (some M) sequences word2idx embedding_dim
      = some (M, some M) := rfl

/-- C10: the `sequences` argument of `build_embedding_matrix` is dead: any
two values of it give equal results, all other inputs (source, cache,
vocabulary, dimension) held fixed. -/
theorem sequences_argument_unused (word_vectors : EmbeddingSource) (cache : Option Mat)
    (s1 s2 : List (List Nat)) (word2idx : Vocab) (embedding_dim : Nat) :
    build_embedding_matrix word_vectors cache s1 word2idx embedding_dim
      = build_embedding_matrix word_vectors cache s2 word2idx embedding_dim := rfl

/-- C6: `predict_spam` thresholds the spam-class probability at 0.5: it
returns "Spam" exactly when that probability exceeds 1/2, returns
"Not Spam" otherwise, and the result is always one of these two labels. -/
theorem predict_spam_threshold (message : String) (model : ModelHandle)
    (tokenizer : Tokenizer) (max_seqlen : Nat) :
    (predict_spam message model tokenizer max_seqlen = "Spam"
        ↔ (model (pad_sequences (tokenizer message) max_seqlen)).2 > 1/2)
      ∧ (predict_spam message model tokenizer max_seqlen = "Spam"
          ∨ predict_spam message model tokenizer max_seqlen = "Not Spam") := by
  unfold predict_spam
  by_cases h : (model (pad_sequences (tokenizer message) max_seqlen)).2 > 1/2 <;>
    simp [h] <;> exact lt_or_le _ _

/-- C7: predictor determinism: `predict_spam` is a pure function of its
four arguments, so two calls with the same message, model handle,
tokenizer and maximum length return the same label. -/
theorem predict_spam_deterministic (message : String) (model : ModelHandle)
    (tokenizer : Tokenizer) (max_seqlen : Nat) :
    predict_spam message model tokenizer max_seqlen
      = predict_spam message model tokenizer max_seqlen := rfl

/-- C8: padding invariant: the padded sequence built inside `predict_spam`
has length exactly `max_seqlen`, whatever the tokenized length of the
original text. -/
theorem pad_sequences_length (message : String) (tokenizer : Tokenizer)
    (max_seqlen : Nat) :
    (pad_sequences (tokenizer message) max_seqlen).length = max_seqlen := by
  unfold pad_sequences
  by_cases h : max_seqlen ≤ (tokenizer message).length <;> simp [h] <;> omega

/-- A successful numpy row assignment means the index was in range, the
vector matched the row length, and the result is `List.set`. -/
theorem setRow_spec {E E' : Mat} {idx : Nat} {vec : Vec}
    (h : setRow E idx vec = some E') :
    ∃ row, E[idx]? = some row ∧ vec.length = row.length ∧ E' = E.set idx vec := by
  unfold setRow at h
  split at h
  · exact absurd h (by simp)
  · rename_i row hg
    split at h
    · rename_i hl
      exact ⟨row, hg, hl, (Option.some.inj h).symm⟩
    · exact absurd h (by simp)

/-- Row assignment stores exactly the assigned vector at the index. -/
theorem setRow_get_self {E E' : Mat} {idx : Nat} {vec : Vec}
    (h : setRow E idx vec = some E') : E'[idx]? = some vec := by
  obtain ⟨row, hg, -, hE⟩ := setRow_spec h
  obtain ⟨hlt, -⟩ := List.getElem?_eq_some.mp hg
  subst hE
  exact List.getElem?_set_self hlt

/-- Row assignment leaves every other row unchanged. -/
theorem setRow_get_ne {E E' : Mat} {idx j : Nat} {vec : Vec}
    (h : setRow E idx vec = some E') (hne : idx ≠ j) : E'[j]? = E[j]? := by
  obtain ⟨row, -, -, hE⟩ := setRow_spec h
  subst hE
  exact List.getElem?_set_ne hne

/-- Row assignment preserves the matrix shape. -/
theorem setRow_shape {E E' : Mat} {idx : Nat} {vec : Vec} {v d : Nat}
    (hs : isShape E v d) (h : setRow E idx vec = some E') : isShape E' v d := by
  obtain ⟨row, hg, hl, hE⟩ := setRow_spec h
  subst hE
  obtain ⟨hlen, hrows⟩ := hs
  refine ⟨by simp [hlen], ?_⟩
  intro r hr
  rcases List.mem_or_eq_of_mem_set hr with hmem | heq
  · exact hrows r hmem
  · subst heq
    rw [hl]
    exact hrows row (List.getElem?_mem hg)

/-- The fill loop preserves the matrix shape. -/
theorem fillRows_shape {word_vectors : EmbeddingSource} {v d : Nat} :
    ∀ (l : Vocab) {E E' : Mat}, isShape E v d →
      fillRows word_vectors l E = some E' → isShape E' v d := by
  intro l
  induction l with
  | nil =>
    intro E E' hs h
    cases h
    exact hs
  | cons p rest ih =>
    intro E E' hs h
    obtain ⟨word, idx⟩ := p
    cases hw : word_vectors word with
    | none =>
      simp only [fillRows, hw] at h
      exact ih hs h
    | some vec =>
      simp only [fillRows, hw] at h
      cases hsr : setRow E idx vec with
      | none => simp [hsr] at h
      | some E2 =>
        simp only [hsr] at h
        exact ih (setRow_shape hs hsr) h

/-- A row whose index is hit by no word present in the source is left
unchanged by the fill loop. -/
theorem fillRows_untouched {word_vectors : EmbeddingSource} {j : Nat} :
    ∀ (l : Vocab) {E E' : Mat},
      (∀ p ∈ l, (word_vectors p.1).isSome → p.2 ≠ j) →
      fillRows word_vectors l E = some E' → E'[j]? = E[j]? := by
  intro l
  induction l with
  | nil =>
    intro E E' _ h
    cases h
    rfl
  | cons p rest ih =>
    intro E E' hp h
    obtain ⟨word, idx⟩ := p
    cases hw : word_vectors word with
    | none =>
      simp only [fillRows, hw] at h
      exact ih (fun q hq => hp q (List.mem_cons_of_mem _ hq)) h
    | some vec =>
      simp only [fillRows, hw] at h
      cases hsr : setRow E idx vec with
      | none => simp [hsr] at h
      | some E2 =>
        simp only [hsr] at h
        have hne : idx ≠ j := hp (word, idx) (List.mem_cons_self _ _) (by simp [hw])
        rw [ih (fun q hq => hp q (List.mem_cons_of_mem _ hq)) h]
        exact setRow_get_ne hsr hne

/-- When indices are pairwise distinct, a word present in the source ends
with exactly its vector in its row. -/
theorem fillRows_assigned {word_vectors : EmbeddingSource} {word : String}
    {j : Nat} {vec : Vec} :
    ∀ (l : Vocab) {E E' : Mat}, (l.map Prod.snd).Nodup → (word, j) ∈ l →
      word_vectors word = some vec →
      fillRows word_vectors l E = some E' → E'[j]? = some vec := by
  intro l
  induction l with
  | nil =>
    intro E E' _ hm
    cases hm
  | cons p rest ih =>
    intro E E' hnd hm hwv h
    obtain ⟨w, i⟩ := p
    simp only [List.map_cons, List.nodup_cons] at hnd
    rcases List.mem_cons.mp hm with heq | hmem
    · cases heq
      simp only [fillRows, hwv] at h
      cases hsr : setRow E j vec with
      | none => simp [hsr] at h
      | some E2 =>
        simp only [hsr] at h
        have huntouched : E'[j]? = E2[j]? := by
          refine fillRows_untouched rest ?_ h
          intro q hq _
          intro hqj
          exact hnd.1 (hqj ▸ List.mem_map_of_mem Prod.snd hq)
        rw [huntouched]
        exact setRow_get_self hsr
    · cases hw : word_vectors w with
      | none =>
        simp only [fillRows, hw] at h
        exact ih hnd.2 hmem hwv h
      | some v2 =>
        simp only [fillRows, hw] at h
        cases hsr : setRow E i v2 with
        | none => simp [hsr] at h
        | some E2 =>
          simp only [hsr] at h
          exact ih hnd.2 hmem hwv h

/-- The fill loop succeeds on a matrix of the right shape when every
vocabulary index is in range and every source vector has the embedding
dimension; a lookup miss alone never makes it fail. -/
theorem fillRows_total {word_vectors : EmbeddingSource} {v d : Nat}
    (hdim : ∀ w vec, word_vectors w = some vec → vec.length = d) :
    ∀ (l : Vocab) {E : Mat}, isShape E v d → (∀ p ∈ l, p.2 < v) →
      ∃ E', fillRows word_vectors l E = some E' := by
  intro l
  induction l with
  | nil =>
    intro E _ _
    exact ⟨E, rfl⟩
  | cons p rest ih =>
    intro E hs hr
    obtain ⟨word, idx⟩ := p
    cases hw : word_vectors word with
    | none =>
      obtain ⟨E', hE'⟩ := ih hs (fun q hq => hr q (List.mem_cons_of_mem _ hq))
      refine ⟨E', ?_⟩
      simp only [fillRows, hw]
      exact hE'
    | some vec =>
      have hidx : idx < E.length := by
        rw [hs.1]
        exact hr (word, idx) (List.mem_cons_self _ _)
      have hrow : E[idx]? = some (E.get ⟨idx, hidx⟩) := List.getElem?_eq_getElem hidx
      have hlenv : vec.length = (E.get ⟨idx, hidx⟩).length := by
        rw [hdim word vec hw]
        exact (hs.2 _ (List.getElem?_mem hrow)).symm
      have hset : setRow E idx vec = some (E.set idx vec) := by
        unfold setRow
        rw [hrow]
        simp [hlenv]
      obtain ⟨E', hE'⟩ := ih (setRow_shape hs hset)
        (fun q hq => hr q (List.mem_cons_of_mem _ hq))
      refine ⟨E', ?_⟩
      simp only [fillRows, hw, hset]
      exact hE'

/-- `np.zeros((v, d))` has shape (v, d). -/
theorem zerosMatrix_shape (v d : Nat) : isShape (zerosMatrix v d) v d := by
  refine ⟨by simp [zerosMatrix], ?_⟩
  intro row hr
  simp only [zerosMatrix] at hr
  have hrow : row = List.replicate d 0 := (List.mem_replicate.mp hr).2
  rw [hrow]
  simp

/-- A successful cache-miss call is exactly a successful fill of the zero
matrix, and the file afterwards holds the returned matrix. -/
theorem build_miss_spec {word_vectors : EmbeddingSource} {sequences : List (List Nat)}
    {word2idx : Vocab} {embedding_dim : Nat} {E : Mat} {cacheAfter : Option Mat}
    (h : build_embedding_matrix word_vectors none sequences word2idx embedding_dim
          = some (E, cacheAfter)) :
    fillRows word_vectors word2idx (zerosMatrix word2idx.length embedding_dim) = some E
      ∧ cacheAfter = some E := by
  simp only [build_embedding_matrix] at h
  cases hf : fillRows word_vectors word2idx (zerosMatrix word2idx.length embedding_dim) with
  | none => rw [hf] at h; cases h
  | some E1 =>
    rw [hf] at h
    simp only [Option.some.injEq, Prod.mk.injEq] at h
    obtain ⟨h1, h2⟩ := h
    subst h1
    exact ⟨rfl, h2.symm⟩

/-- C1 (amended): on the cache-miss path, a successful call to
`build_embedding_matrix` returns a matrix of shape (V, D), where V is the
size of the vocabulary mapping and D the embedding dimension; on the
cache-hit path the cached matrix is returned verbatim, so its shape is
whatever was stored. -/
theorem cache_miss_shape (word_vectors : EmbeddingSource) (sequences : List (List Nat))
    (word2idx : Vocab) (embedding_dim : Nat) (E : Mat) (cacheAfter : Option Mat)
    (h : build_embedding_matrix word_vectors none sequences word2idx embedding_dim
          = some (E, cacheAfter)) :
    isShape E word2idx.length embedding_dim :=
  fillRows_shape word2idx (zerosMatrix_shape word2idx.length embedding_dim)
    (build_miss_spec h).1

/-- C1 fails as stated: with a stale cache file holding a 1×1 matrix, a
vocabulary of size 2 and embedding dimension 3, `build_embedding_matrix`
returns the cached 1×1 matrix, which does not have shape (2, 3). -/
theorem shape_claim_counterexample :
    build_embedding_matrix (fun _ => none) (some [[0]]) [] [("a", 0), ("b", 1)] 3
        = some ([[0]], some [[0]])
      ∧ ¬ isShape [[(0 : ℚ)]] 2 3 := by
  exact ⟨rfl, by decide⟩

/-- Witness for C1 (amended): a concrete cache-miss call with one word of
dimension 2 yields the 1×2 matrix holding that word's vector. -/
theorem cache_miss_shape_witness : isShape [[(1 : ℚ), 2]] 1 2 :=
  cache_miss_shape (fun w => if w = "a" then some [1, 2] else none) [] [("a", 0)] 2
    [[1, 2]] (some [[1, 2]]) (by rfl)

/-- C4: on the cache-miss path, a successful call persists the returned
matrix: afterwards the cache file exists and holds exactly the returned
matrix. -/
theorem cache_miss_persists (word_vectors : EmbeddingSource)
    (sequences : List (List Nat)) (word2idx : Vocab) (embedding_dim : Nat)
    (E : Mat) (cacheAfter : Option Mat)
    (h : build_embedding_matrix word_vectors none sequences word2idx embedding_dim
          = some (E, cacheAfter)) :
    cacheAfter = some E :=
  (build_miss_spec h).2

/-- Witness for C4 at a concrete cache-miss call. -/
theorem cache_miss_persists_witness : (some [[(5 : ℚ)]] : Option Mat) = some [[5]] :=
  cache_miss_persists (fun w => if w = "a" then some [5] else none) [] [("a", 0)] 1
    [[5]] (some [[5]]) (by rfl)

/-- C3: on the cache-miss path, with pairwise-distinct in-range vocabulary
indices (the data model: a word-to-unique-index mapping) and source vectors
of the embedding dimension, the call succeeds — so a lookup miss never
raises — and for every (word, index) pair: a word present in the source has
exactly its vector as row `index`, and an absent word leaves row `index`
all zeros. -/
theorem cache_miss_rows (word_vectors : EmbeddingSource) (sequences : List (List Nat))
    (word2idx : Vocab) (embedding_dim : Nat)
    (hnodup : (word2idx.map Prod.snd).Nodup)
    (hrange : ∀ p ∈ word2idx, p.2 < word2idx.length)
    (hdim : ∀ w vec, word_vectors w = some vec → vec.length = embedding_dim) :
    ∃ E, build_embedding_matrix word_vectors none sequences word2idx embedding_dim
          = some (E, some E)
      ∧ ∀ word idx, (word, idx) ∈ word2idx →
          (∀ vec, word_vectors word = some vec → E[idx]? = some vec)
          ∧ (word_vectors word = none
              → E[idx]? = some (List.replicate embedding_dim 0)) := by
  obtain ⟨E, hE⟩ := fillRows_total hdim word2idx
    (zerosMatrix_shape word2idx.length embedding_dim) hrange
  refine ⟨E, ?_, ?_⟩
  · simp only [build_embedding_matrix, hE]
  · intro word idx hmem
    constructor
    · intro vec hwv
      exact fillRows_assigned word2idx hnodup hmem hwv hE
    · intro hw
      have huntouched :
          E[idx]? = (zerosMatrix word2idx.length embedding_dim)[idx]? := by
        refine fillRows_untouched word2idx ?_ hE
        intro p hp hsome hpj
        have hpair : p = (word, idx) := by
          refine List.inj_on_of_nodup_map hnodup hp hmem ?_
          exact hpj
        rw [hpair] at hsome
        simp [hw] at hsome
      rw [huntouched]
      have hlt : idx < word2idx.length := hrange (word, idx) hmem
      simp [zerosMatrix, hlt]

/-- Witness for C3: a two-word vocabulary where "hello" is in the source
and "PAD" is not. -/
theorem cache_miss_rows_witness :
    ∃ E, build_embedding_matrix
          (fun w => if w = "hello" then some [(1 : ℚ), 2] else none) none []
          [("PAD", 0), ("hello", 1)] 2
          = some (E, some E)
      ∧ ∀ word idx, (word, idx) ∈ [("PAD", 0), ("hello", 1)] →
          (∀ vec, (if word = "hello" then some [(1 : ℚ), 2] else none) = some vec
              → E[idx]? = some vec)
          ∧ ((if word = "hello" then some [(1 : ℚ), 2] else none) = none
              → E[idx]? = some (List.replicate 2 0)) :=
  cache_miss_rows (fun w => if w = "hello" then some [(1 : ℚ), 2] else none) []
    [("PAD", 0), ("hello", 1)] 2 (by decide) (by decide)
    (by
      intro w vec h
      by_cases hw : w = "hello"
      · rw [hw] at h
        simp only [if_pos rfl] at h
        rw [← Option.some.inj h]
        rfl
      · simp [hw] at h)

/-- C5: Embedding Builder idempotence: when the cache file exists, a call
returns the cached matrix and leaves the file unchanged, so a second call
with the same vocabulary, dimension and path returns the identical
matrix. -/
theorem build_idempotent_on_cache_hit (word_vectors : EmbeddingSource) (M : Mat)
    (sequences : List (List Nat)) (word2idx : Vocab) (embedding_dim : Nat)
    (E1 E2 : Mat) (c1 c2 : Option Mat)
    (h1 : build_embedding_matrix word_vectors (some M) sequences word2idx embedding_dim
          = some (E1, c1))
    (h2 : build_embedding_matrix word_vectors c1 sequences word2idx embedding_dim
          = some (E2, c2)) :
    E1 = E2 ∧ c1 = c2 := by
  simp only [build_embedding_matrix, Option.some.injEq, Prod.mk.injEq] at h1
  obtain ⟨hE1, hc1⟩ := h1
  subst hE1
  subst hc1
  simp only [build_embedding_matrix, Option.some.injEq, Prod.mk.injEq] at h2
  exact ⟨h2.1, h2.2⟩

/-- Witness for C5 at a concrete existing cache. -/
theorem build_idempotent_on_cache_hit_witness :
    ([[(7 : ℚ)]] : Mat) = [[7]] ∧ (some [[(7 : ℚ)]] : Option Mat) = some [[7]] :=
  build_idempotent_on_cache_hit (fun _ => none) [[7]] [] [] 0 [[7]] [[7]]
    (some [[7]]) (some [[7]]) (by rfl) (by rfl)

/-- A successfully parsed line is encoded as 1 exactly when its label
field is "spam", and as 0 otherwise. -/
theorem parseLine_label {line : List Char} {lab : Nat} {text : List Char}
    (h : parseLine line = some (lab, text)) :
    lab = if labelField line = "spam".toList then 1 else 0 := by
  unfold parseLine at h
  split at h
  · rename_i label t hsplit
    have hfield : labelField line = label := by
      unfold labelField
      rw [hsplit]
      rfl
    simp only [Option.some.injEq, Prod.mk.injEq] at h
    rw [hfield, ← h.1]
  · exact absurd h (by simp)

/-- C9: label-encoding round trip of `read_data`: on every successfully
parsed input, the number of 1-labels equals the number of lines whose
label field is exactly "spam", the number of 0-labels equals the number
of remaining (ham) lines, every label is 0 or 1, and the texts and
labels lists have equal length. -/
theorem read_data_label_counts :
    ∀ (lines texts : List (List Char)) (labels : List Nat),
      read_data lines = some (texts, labels) →
      labels.count 1 = lines.countP (fun line => labelField line == "spam".toList)
        ∧ labels.count 0
            = lines.countP (fun line => !(labelField line == "spam".toList))
        ∧ (∀ x ∈ labels, x = 0 ∨ x = 1)
        ∧ texts.length = labels.length := by
  intro lines
  induction lines with
  | nil =>
    intro texts labels h
    simp only [read_data, Option.some.injEq, Prod.mk.injEq] at h
    obtain ⟨h1, h2⟩ := h
    subst h1
    subst h2
    simp
  | cons line rest ih =>
    intro texts labels h
    unfold read_data at h
    cases hp : parseLine line with
    | none => rw [hp] at h; cases h
    | some p =>
      obtain ⟨lab, text⟩ := p
      cases hr : read_data rest with
      | none => rw [hp, hr] at h; cases h
      | some q =>
        obtain ⟨ts, ls⟩ := q
        rw [hp, hr] at h
        simp only [Option.some.injEq, Prod.mk.injEq] at h
        obtain ⟨h1, h2⟩ := h
        subst h1
        subst h2
        obtain ⟨ih1, ih2, ih3, ih4⟩ := ih ts ls hr
        have hlab := parseLine_label hp
        by_cases hsp : labelField line = "spam".toList
        · rw [if_pos hsp] at hlab
          subst hlab
          refine ⟨?_, ?_, ?_, by simp [ih4]⟩
          · simp [List.count_cons, List.countP_cons, hsp, ih1]
          · simp [List.count_cons, List.countP_cons, hsp, ih2]
          · intro x hx
            rcases List.mem_cons.mp hx with hx1 | hx2
            · right; exact hx1
            · exact ih3 x hx2
        · rw [if_neg hsp] at hlab
          subst hlab
          have hsp2 : ¬ labelField line = ['s', 'p', 'a', 'm'] := by simpa using hsp
          refine ⟨?_, ?_, ?_, by simp [ih4]⟩
          · simp [List.count_cons, List.countP_cons, hsp2, ih1]
          · simp [List.count_cons, List.countP_cons, hsp2, ih2]
          · intro x hx
            rcases List.mem_cons.mp hx with hx1 | hx2
            · left; exact hx1
            · exact ih3 x hx2

/-- Witness for C9 on a two-line input, one spam line and one ham line. -/
theorem read_data_label_counts_witness :
    ([1, 0] : List Nat).count 1
        = [("spam\thello").toList, ("ham\tyo").toList].countP
            (fun line => labelField line == "spam".toList)
      ∧ ([1, 0] : List Nat).count 0
          = [("spam\thello").toList, ("ham\tyo").toList].countP
              (fun line => !(labelField line == "spam".toList))
      ∧ (∀ x ∈ ([1, 0] : List Nat), x = 0 ∨ x = 1)
      ∧ ([("hello").toList, ("yo").toList] : List (List Char)).length
          = ([1, 0] : List Nat).length :=
  read_data_label_counts [("spam\thello").toList, ("ham\tyo").toList]
    [("hello").toList, ("yo").toList] [1, 0] (by decide)

end SpamNet
